import Mathlib

/-!
Verification of the geometry extraction pipeline in `parser.py`.

A line of text is modelled as a list of characters.  Pure Python string
operations (`str.strip`, `str.rstrip("\n")`, the two regular expressions,
dict lookup, f-string construction) are embedded as executable Lean
functions on `List Char`.  Logging of warnings is modelled as an explicit
list of emitted messages; exceptions are modelled with `Except`; the file
system is modelled by passing the input artifact content to the
orchestrator explicitly, and returning the would-be output artifact
content.
-/

namespace G2P

/-- A line of text: a list of characters (bytes of the decoded text). -/
abbrev Line := List Char

/-- Python regex/str whitespace (ASCII range), as used by `\s`, `str.strip`. -/
def pyIsSpace (c : Char) : Bool :=
  c = ' ' || c = '\t' || c = '\n' || c = '\r' || c = Char.ofNat 11 || c = Char.ofNat 12

/-- Truthiness test `not line.strip()`: the line is blank iff every
character is whitespace (stripping both ends leaves the empty string). -/
def isBlank (l : Line) : Bool := l.all pyIsSpace

/-- Python `line.rstrip("\n")`: remove every trailing newline character. -/
def rstripNewlines (l : Line) : Line :=
  (l.reverse.dropWhile (fun c => c = '\n')).reverse

/-- Case-insensitive literal match of a pattern at the head of `s`;
returns the remainder after the pattern on success.  This embeds the
literal pieces of `GEOM_HEADER_PATTERN` under `re.IGNORECASE`. -/
def matchLitCI : List Char → List Char → Option (List Char)
  | [], s => some s
  | _ :: _, [] => none
  | p :: ps, c :: cs => if c.toUpper = p.toUpper then matchLitCI ps cs else none

/-- Match of `CARTESIAN\s+COORDINATES\s*\(ANGSTROEM\)` anchored at the head
of `s`.  The greedy `\s+`/`\s*` need no backtracking because the following
literal characters (`C`, `(`) are not whitespace, so consuming the maximal
whitespace run is equivalent to the regex engine's behaviour. -/
def headerMatchAt (s : List Char) : Bool :=
  match matchLitCI "CARTESIAN".data s with
  | none => false
  | some r1 =>
    match r1 with
    | [] => false
    | c :: _ =>
      if pyIsSpace c then
        match matchLitCI "COORDINATES".data (r1.dropWhile pyIsSpace) with
        | none => false
        | some r2 =>
          match matchLitCI "(ANGSTROEM)".data (r2.dropWhile pyIsSpace) with
          | none => false
          | some _ => true
      else false

/-- `GEOM_HEADER_PATTERN.search(line)`: the anchored match tried at every
position of the line. -/
def headerMatch : Line → Bool
  | [] => false
  | c :: cs => headerMatchAt (c :: cs) || headerMatch cs

/-- The `for i, line in enumerate(lines): if search(line): break` scan in
`find_geometry_block`: index of the first line matching the header. -/
def findHeaderIdx : List Line → Option Nat
  | [] => none
  | l :: rest =>
    if headerMatch l then some 0
    else (findHeaderIdx rest).map (· + 1)

/-- The `while end < len(lines) and lines[end].strip(): end += 1` loop,
started at the head of `ls`: number of leading non-blank lines. -/
def countNonBlank (ls : List Line) : Nat :=
  (ls.takeWhile (fun l => !isBlank l)).length

/-- The `GeometryBlock` dataclass of `parser.py`. -/
structure GeometryBlock where
  start_line : Nat
  end_line : Nat
  lines : List Line
deriving DecidableEq

/-- `find_geometry_block`: locate the geometry block.  The block starts two
lines after the header line and continues until (but not including) the
first blank line. -/
def find_geometry_block (lines : List Line) : Option GeometryBlock :=
  match findHeaderIdx lines with
  | none => none
  | some header_idx =>
    let start := header_idx + 2
    if lines.length ≤ start then none
    else
      let e := start + countNonBlank (lines.drop start)
      if e ≤ start then none
      else some { start_line := start, end_line := e
                , lines := (lines.drop start).take (e - start) }

/-- The `MASS_BY_SYMBOL` table of `parser.py`. -/
def MASS_BY_SYMBOL : List (String × Nat) := [("N", 14), ("C", 12), ("O", 16), ("H", 1)]

/-- Dict lookup `token in MASS_BY_SYMBOL` / `MASS_BY_SYMBOL[token]` on the
four fixed keys of the table. -/
def lookupMass (token : List Char) : Option Nat :=
  if token = "N".data then some 14
  else if token = "C".data then some 12
  else if token = "O".data then some 16
  else if token = "H".data then some 1
  else none

/-- `sorted(MASS_BY_SYMBOL)`: the dict keys in ascending lexicographic
order, as interpolated into the strict-mode error message. -/
def sortedSupported : List (List Char) := ["C".data, "H".data, "N".data, "O".data]

/-- Python string comparison on code points (used to certify that
`sortedSupported` is indeed the sorted key list). -/
def strLtB : List Char → List Char → Bool
  | [], [] => false
  | [], _ :: _ => true
  | _ :: _, [] => false
  | x :: xs, y :: ys =>
    if x < y then true
    else if x = y then strLtB xs ys
    else false

/-- The payload of the `ValueError` raised by `symbol_to_mass_token` in
strict mode: the offending token and `sorted(MASS_BY_SYMBOL)`. -/
structure UnrecognizedSymbol where
  token : List Char
  supported : List (List Char)
deriving DecidableEq

/-- The `logging.warning("Unrecognized first token, ...", token)` message
emitted in permissive mode, with the token interpolated for `%s`. -/
def warningMsg (token : List Char) : List Char :=
  "Unrecognized first token \x27".data ++ token
    ++ "\x27 in geometry row; leaving unchanged.".data

/-- `symbol_to_mass_token`: map a known symbol to `str(mass)`; otherwise
raise in strict mode or pass the token through with a warning.  The second
component of the success value is the list of warning messages emitted. -/
def symbol_to_mass_token (token : List Char) (strict : Bool) :
    Except UnrecognizedSymbol (List Char × List Line) :=
  match lookupMass token with
  | some mass => .ok ((Nat.repr mass).data, [])
  | none =>
    if strict then .error { token := token, supported := sortedSupported }
    else .ok (token, [warningMsg token])

/-- `FIRST_TOKEN_RE.match(s)` for `^(?P<lead_ws>\s*)(?P<tok>\S+)(?P<rest>.*)$`
applied to a string `s` already stripped of trailing newlines.  The match
succeeds iff `s` has a non-whitespace character and the remainder after the
first token contains no newline (since `.` does not match a newline and `$`
can only match at the end; `s` has no trailing newline after the rstrip). -/
def FIRST_TOKEN_RE_match (s : List Char) :
    Option (List Char × List Char × List Char) :=
  let lead_ws := s.takeWhile pyIsSpace
  let t := s.dropWhile pyIsSpace
  match t with
  | [] => none
  | _ :: _ =>
    let tok := t.takeWhile (fun c => !pyIsSpace c)
    let rest := t.dropWhile (fun c => !pyIsSpace c)
    if '\n' ∈ rest then none else some (lead_ws, tok, rest)

/-- The loop body of `transform_geometry_lines` for a single line:
split off the first token after rstripping newlines, map it through
`symbol_to_mass_token`, and re-append a single terminator; a line that the
regex does not match is passed through completely unchanged. -/
def transform_line (line : Line) (strict : Bool) :
    Except UnrecognizedSymbol (Line × List Line) :=
  match FIRST_TOKEN_RE_match (rstripNewlines line) with
  | none => .ok (line, [])
  | some (lead_ws, tok, rest) =>
    match symbol_to_mass_token tok strict with
    | .error e => .error e
    | .ok (new_tok, warns) => .ok (lead_ws ++ new_tok ++ rest ++ ['\n'], warns)

/-- `transform_geometry_lines`: transform each line in order; a strict-mode
`ValueError` aborts the whole computation at the first offending line.  The
second component of the success value collects the emitted warnings. -/
def transform_geometry_lines (raw_lines : List Line) (strict : Bool) :
    Except UnrecognizedSymbol (List Line × List Line) :=
  match raw_lines with
  | [] => .ok ([], [])
  | line :: rest =>
    match transform_line line strict with
    | .error e => .error e
    | .ok (l, w) =>
      match transform_geometry_lines rest strict with
      | .error e => .error e
      | .ok (ls, ws) => .ok (l :: ls, w ++ ws)

/-- `read_text_lines` / `f.readlines()`: split the artifact content into
lines, each keeping its terminating newline; a final unterminated piece is
kept as a last line. -/
def read_text_lines : List Char → List Line
  | [] => []
  | c :: cs =>
    if c = '\n' then ['\n'] :: read_text_lines cs
    else
      match read_text_lines cs with
      | [] => [[c]]
      | l :: ls => (c :: l) :: ls

/-- The exceptions that `generate_geometry_file` can raise: the
`RuntimeError` for a missing block, or the propagated strict-mode
`ValueError`. -/
inductive PipelineError where
  | blockNotFound
  | unrecognizedSymbol (e : UnrecognizedSymbol)
deriving DecidableEq

/-- `generate_geometry_file` on the content of the input artifact: read the
lines, locate the block, transform it, and return the lines that are then
written to `geometry.txt`.  Nothing is written when an error is raised
first. -/
def generate_geometry_file (content : List Char) (strict : Bool) :
    Except PipelineError (List Line) :=
  let all_lines := read_text_lines content
  match find_geometry_block all_lines with
  | none => .error .blockNotFound
  | some block =>
    match transform_geometry_lines block.lines strict with
    | .error e => .error (.unrecognizedSymbol e)
    | .ok (transformed, _warns) => .ok transformed

/-- `main`: the exit code together with the content of the output artifact
(`none` when no artifact is produced).  `input_exists` models
`args.input.exists()`, `write_ok` models the success of the final write,
and `log_level` models `--log`, which configures logging only. -/
def main (input_exists : Bool) (content : List Char) (strict : Bool)
    (write_ok : Bool) (log_level : Nat) : Nat × Option (List Line) :=
  if input_exists = false then (2, none)
  else
    match generate_geometry_file content strict with
    | .error _ => (1, none)
    | .ok out => if write_ok then (0, some out) else (1, none)

/-- A line ends in exactly one line terminator: its last character is a
newline and the character before it (if any) is not. -/
def endsInOneTerminator (l : Line) : Bool :=
  match l.reverse with
  | [] => false
  | c :: rest =>
    c = '\n' && (match rest with
      | [] => true
      | d :: _ => !(d = '\n'))

/-- Whether `pat` starts `s` (substring occurrence test helper). -/
def leadsWith : List Char → List Char → Bool
  | [], _ => true
  | _ :: _, [] => false
  | p :: ps, c :: cs => p = c && leadsWith ps cs

/-- Whether `pat` occurs contiguously somewhere inside `s`. -/
def occursIn (pat : List Char) : List Char → Bool
  | [] => leadsWith pat []
  | c :: cs => leadsWith pat (c :: cs) || occursIn pat cs

/-! ### Helper lemmas about the block locator -/

theorem take_length_takeWhile {α : Type} (p : α → Bool) (l : List α) :
    l.take (l.takeWhile p).length = l.takeWhile p := by
  induction l with
  | nil => rfl
  | cons a t ih =>
    by_cases h : p a <;> simp [List.takeWhile_cons, h, ih]

theorem take_countNonBlank (ls : List Line) :
    ls.take (countNonBlank ls) = ls.takeWhile (fun l => !isBlank l) := by
  unfold countNonBlank
  exact take_length_takeWhile _ ls

theorem countNonBlank_le (ls : List Line) : countNonBlank ls ≤ ls.length := by
  unfold countNonBlank
  exact (List.takeWhile_sublist _).length_le

theorem findHeaderIdx_eq_none (lines : List Line) :
    findHeaderIdx lines = none ↔ ∀ l ∈ lines, headerMatch l = false := by
  induction lines with
  | nil => simp [findHeaderIdx]
  | cons a t ih =>
    by_cases h : headerMatch a <;>
      simp [findHeaderIdx, h, Option.map_eq_none', ih]

theorem findHeaderIdx_matches (lines : List Line) (h : Nat)
    (hidx : findHeaderIdx lines = some h) :
    ∃ l, lines[h]? = some l ∧ headerMatch l = true := by
  induction lines generalizing h with
  | nil => simp [findHeaderIdx] at hidx
  | cons a t ih =>
    by_cases ha : headerMatch a
    · simp [findHeaderIdx, ha] at hidx
      subst hidx
      exact ⟨a, by simp, ha⟩
    · simp [findHeaderIdx, ha] at hidx
      obtain ⟨h0, hh0, hrec⟩ := hidx
      obtain ⟨l, hl, hm⟩ := ih h0 hh0
      exact ⟨l, by simpa [hrec.symm] using hl, hm⟩

theorem findHeaderIdx_eq_some_of (lines : List Line) (h : Nat)
    (hmatch : ∃ lh, lines[h]? = some lh ∧ headerMatch lh = true)
    (hfirst : ∀ j l, j < h → lines[j]? = some l → headerMatch l = false) :
    findHeaderIdx lines = some h := by
  induction lines generalizing h with
  | nil => obtain ⟨lh, hlh, _⟩ := hmatch; simp at hlh
  | cons a t ih =>
    cases h with
    | zero =>
      obtain ⟨lh, hlh, hm⟩ := hmatch
      simp at hlh
      subst hlh
      simp [findHeaderIdx, hm]
    | succ n =>
      have ha : headerMatch a = false := hfirst 0 a (Nat.succ_pos n) (by simp)
      have : findHeaderIdx t = some n := by
        apply ih
        · obtain ⟨lh, hlh, hm⟩ := hmatch
          exact ⟨lh, by simpa using hlh, hm⟩
        · intro j l hj hl
          exact hfirst (j + 1) l (Nat.succ_lt_succ hj) (by simpa using hl)
      simp [findHeaderIdx, ha, this]

theorem countNonBlank_eq (ls : List Line) (k : Nat)
    (hnb : ∀ i l, i < k → ls[i]? = some l → isBlank l = false)
    (hend : ls.length = k ∨ ∃ l, ls[k]? = some l ∧ isBlank l = true) :
    countNonBlank ls = k := by
  induction ls generalizing k with
  | nil =>
    rcases hend with hlen | ⟨l, hl, _⟩
    · simp [countNonBlank, ← hlen]
    · simp at hl
  | cons a t ih =>
    cases k with
    | zero =>
      rcases hend with hlen | ⟨l, hl, hbl⟩
      · simp at hlen
      · simp at hl
        subst hl
        simp [countNonBlank, List.takeWhile_cons, hbl]
    | succ n =>
      have ha : isBlank a = false := hnb 0 a (Nat.succ_pos n) (by simp)
      have ht : countNonBlank t = n := by
        apply ih
        · intro i l hi hl
          exact hnb (i + 1) l (Nat.succ_lt_succ hi) (by simpa using hl)
        · rcases hend with hlen | ⟨l, hl, hbl⟩
          · left; simpa using hlen
          · right; exact ⟨l, by simpa using hl, hbl⟩
      simp [countNonBlank, List.takeWhile_cons, ha] at *
      omega

theorem find_geometry_block_some_inv (lines : List Line) (b : GeometryBlock)
    (hb : find_geometry_block lines = some b) :
    b.start_line < lines.length ∧ b.start_line < b.end_line ∧
    b.end_line = b.start_line + countNonBlank (lines.drop b.start_line) ∧
    b.lines = (lines.drop b.start_line).takeWhile (fun l => !isBlank l) := by
  unfold find_geometry_block at hb
  cases hidx : findHeaderIdx lines with
  | none => rw [hidx] at hb; cases hb
  | some h =>
    rw [hidx] at hb
    simp only at hb
    by_cases hlen : lines.length ≤ h + 2
    · rw [if_pos hlen] at hb; cases hb
    · rw [if_neg hlen] at hb
      by_cases he : h + 2 + countNonBlank (lines.drop (h + 2)) ≤ h + 2
      · rw [if_pos he] at hb; cases hb
      · rw [if_neg he] at hb
        injection hb with hb
        subst hb
        refine ⟨?_, ?_, ?_, ?_⟩
        · show h + 2 < lines.length
          omega
        · show h + 2 < h + 2 + countNonBlank (lines.drop (h + 2))
          omega
        · rfl
        · show (lines.drop (h + 2)).take
              (h + 2 + countNonBlank (lines.drop (h + 2)) - (h + 2)) = _
          simp only [Nat.add_sub_cancel_left]
          exact take_countNonBlank _

/-! ### Claims about the block locator -/

/-- C1 (Block Locator exactness): for a line sequence whose first line
matching the header pattern sits at index `h`, followed by `k ≥ 1` non-blank
lines starting at index `h + 2` and then a blank line or the end of the
sequence, `find_geometry_block` returns a block with half-open index range
exactly `[h + 2, h + 2 + k)` whose lines are the verbatim slice of the
source sequence over that range. -/
theorem block_locator_exact (lines : List Line) (h k : Nat)
    (hmatch : ∃ lh, lines[h]? = some lh ∧ headerMatch lh = true)
    (hfirst : ∀ j l, j < h → lines[j]? = some l → headerMatch l = false)
    (hk : 1 ≤ k)
    (hnb : ∀ i l, h + 2 ≤ i → i < h + 2 + k → lines[i]? = some l → isBlank l = false)
    (hend : lines.length = h + 2 + k ∨
            ∃ l, lines[h + 2 + k]? = some l ∧ isBlank l = true) :
    find_geometry_block lines =
      some { start_line := h + 2, end_line := h + 2 + k
           , lines := (lines.drop (h + 2)).take k } ∧
    ∀ i, i < k → ((lines.drop (h + 2)).take k)[i]? = lines[h + 2 + i]? := by
  have hlen : h + 2 < lines.length := by
    rcases hend with hl | ⟨l, hl, _⟩
    · omega
    · rcases List.getElem?_eq_some_iff.mp hl with ⟨hlt, _⟩
      omega
  have hcount : countNonBlank (lines.drop (h + 2)) = k := by
    apply countNonBlank_eq
    · intro i l hi hl
      rw [List.getElem?_drop] at hl
      exact hnb (h + 2 + i) l (by omega) (by omega) hl
    · rcases hend with hl | ⟨l, hl, hbl⟩
      · left
        rw [List.length_drop]
        omega
      · right
        exact ⟨l, by rw [List.getElem?_drop]; exact hl, hbl⟩
  constructor
  · unfold find_geometry_block
    rw [findHeaderIdx_eq_some_of lines h hmatch hfirst]
    simp only [hcount]
    rw [if_neg (by omega), if_neg (by omega)]
    simp only [Nat.add_sub_cancel_left]
  · intro i hi
    rw [List.getElem?_take, if_pos hi, List.getElem?_drop]

/-- Witness for C1, on a sequence with a header at index 0 and one data
line at index 2, terminated by the end of the sequence. -/
theorem block_locator_exact_witness :
    find_geometry_block
        [String.data "CARTESIAN COORDINATES (ANGSTROEM)",
         String.data "---", String.data "N   1"] =
      some { start_line := 2, end_line := 3, lines := [String.data "N   1"] } ∧
    ∀ i, i < 1 →
      (([String.data "CARTESIAN COORDINATES (ANGSTROEM)",
         String.data "---", String.data "N   1"].drop 2).take 1)[i]? =
        [String.data "CARTESIAN COORDINATES (ANGSTROEM)",
         String.data "---", String.data "N   1"][2 + i]? := by
  refine block_locator_exact _ 0 1
    ⟨String.data "CARTESIAN COORDINATES (ANGSTROEM)", rfl, by decide⟩
    (fun j l hj _ => absurd hj (Nat.not_lt_zero j)) (by omega) ?_ (Or.inl rfl)
  intro i l h1 h2 h3
  have hi : i = 2 := by omega
  subst hi
  simp only [List.getElem?_cons_succ, List.getElem?_cons_zero] at h3
  injection h3 with h3
  subst h3
  decide

/-- C5 (Block Locator not-found conditions): the locator returns no block
exactly when no line matches the header pattern, or when the first header
index plus two is at or beyond the end of the sequence, or when the line at
that position is blank after trimming whitespace. -/
theorem not_found_conditions (lines : List Line) :
    find_geometry_block lines = none ↔
      ((∀ l ∈ lines, headerMatch l = false) ∨
       ∃ h, findHeaderIdx lines = some h ∧
         (lines.length ≤ h + 2 ∨
          ∃ l, lines[h + 2]? = some l ∧ isBlank l = true)) := by
  unfold find_geometry_block
  cases hidx : findHeaderIdx lines with
  | none =>
    simp only []
    constructor
    · intro _
      exact Or.inl ((findHeaderIdx_eq_none lines).mp hidx)
    · intro _
      trivial
  | some h =>
    simp only []
    by_cases hlen : lines.length ≤ h + 2
    · rw [if_pos hlen]
      constructor
      · intro _
        exact Or.inr ⟨h, rfl, Or.inl hlen⟩
      · intro _
        trivial
    · rw [if_neg hlen]
      cases hdrop : lines.drop (h + 2) with
      | nil =>
        exfalso
        rw [List.drop_eq_nil_iff] at hdrop
        omega
      | cons a t =>
        have ha : lines[h + 2]? = some a := by
          have hgd := List.getElem?_drop lines (h + 2) 0
          rw [hdrop] at hgd
          simpa using hgd.symm
        by_cases hblank : isBlank a = true
        · have hc : countNonBlank (a :: t) = 0 := by
            simp [countNonBlank, List.takeWhile_cons, hblank]
          rw [hc, if_pos (by omega)]
          constructor
          · intro _
            exact Or.inr ⟨h, rfl, Or.inr ⟨a, ha, hblank⟩⟩
          · intro _
            trivial
        · have hc : 0 < countNonBlank (a :: t) := by
            simp [countNonBlank, List.takeWhile_cons, hblank]
          rw [if_neg (by omega)]
          constructor
          · intro hno
            simp at hno
          · rintro (hall | ⟨h0, hh0, hcond⟩)
            · obtain ⟨lh, hlh, hm⟩ := findHeaderIdx_matches lines h hidx
              have hmem : lh ∈ lines := List.mem_iff_getElem?.mpr ⟨h, hlh⟩
              rw [hall lh hmem] at hm
              cases hm
            · injection hh0 with hh0
              subst hh0
              rcases hcond with hl | ⟨l, hl, hbl⟩
              · exact (hlen hl).elim
              · rw [ha] at hl
                injection hl with hl
                subst hl
                rw [hbl] at hblank
                exact absurd rfl hblank

theorem mem_rstripNewlines {c : Char} {l : Line} (hc : c ∈ l) (hne : c ≠ '\n') :
    c ∈ rstripNewlines l := by
  unfold rstripNewlines
  rw [List.mem_reverse]
  have hrev : c ∈ l.reverse := List.mem_reverse.mpr hc
  rw [← List.takeWhile_append_dropWhile (fun x => x = '\n') l.reverse] at hrev
  rcases List.mem_append.mp hrev with hmem | hmem
  · have := List.mem_takeWhile_imp hmem
    simp only [decide_eq_true_eq] at this
    exact absurd this hne
  · exact hmem

theorem block_lines_nonblank (lines : List Line) (b : GeometryBlock)
    (hb : find_geometry_block lines = some b) :
    ∀ l ∈ b.lines, isBlank l = false := by
  obtain ⟨_, _, _, h4⟩ := find_geometry_block_some_inv lines b hb
  intro l hl
  rw [h4] at hl
  simpa using List.mem_takeWhile_imp hl

/-- C10 (implicit locator invariant): whenever the locator returns a block,
its index range is non-empty and every line of the block is non-empty after
trimming whitespace; consequently each block line still has a visible
(non-whitespace) character after stripping trailing newlines, so the
tokenizer's whitespace-only edge case never arises on those lines. -/
theorem locator_invariant (lines : List Line) (b : GeometryBlock)
    (hb : find_geometry_block lines = some b) :
    b.start_line < b.end_line ∧
    ∀ l ∈ b.lines, isBlank l = false ∧
      (rstripNewlines l).any (fun c => !pyIsSpace c) = true := by
  obtain ⟨_, h2, _, _⟩ := find_geometry_block_some_inv lines b hb
  refine ⟨h2, ?_⟩
  intro l hl
  have hnb : isBlank l = false := block_lines_nonblank lines b hb l hl
  refine ⟨hnb, ?_⟩
  have hall : l.all pyIsSpace = false := hnb
  obtain ⟨c, hc, hcp⟩ := List.all_eq_false.mp hall
  have hcn : c ≠ '\n' := by
    intro hEq
    subst hEq
    exact hcp (by decide)
  refine List.any_eq_true.mpr ⟨c, mem_rstripNewlines hc hcn, ?_⟩
  simp only [Bool.not_eq_true']
  exact Bool.not_eq_true _ ▸ (by simpa using hcp)

/-- Witness for C10 on a concrete located block. -/
theorem locator_invariant_witness :
    (2 : Nat) < 3 ∧
    ∀ l ∈ [String.data "N   1"], isBlank l = false ∧
      (rstripNewlines l).any (fun c => !pyIsSpace c) = true :=
  locator_invariant
    [String.data "CARTESIAN COORDINATES (ANGSTROEM)",
     String.data "---", String.data "N   1"]
    { start_line := 2, end_line := 3, lines := [String.data "N   1"] }
    (by decide)

/-! ### Helper lemmas about the token transformer -/

theorem dropWhile_head_false {α : Type} (p : α → Bool) (l : List α) (a : α)
    (t : List α) (h : l.dropWhile p = a :: t) : p a = false := by
  induction l with
  | nil => cases h
  | cons x xs ih =>
    rw [List.dropWhile_cons] at h
    by_cases hp : p x
    · rw [if_pos hp] at h
      exact ih h
    · rw [if_neg hp] at h
      injection h with h1 _
      subst h1
      simpa using hp

theorem FIRST_TOKEN_RE_match_some (s lead tok rem : List Char)
    (h : FIRST_TOKEN_RE_match s = some (lead, tok, rem)) :
    lead = s.takeWhile pyIsSpace ∧ tok ≠ [] ∧
    (∀ c ∈ tok, pyIsSpace c = false) ∧ '\n' ∉ rem ∧
    lead ++ (tok ++ rem) = s := by
  unfold FIRST_TOKEN_RE_match at h
  simp only at h
  cases ht : s.dropWhile pyIsSpace with
  | nil =>
    rw [ht] at h
    cases h
  | cons a t =>
    rw [ht] at h
    simp only at h
    by_cases hn : '\n' ∈ (a :: t).dropWhile (fun c => !pyIsSpace c)
    · rw [if_pos hn] at h
      cases h
    · rw [if_neg hn] at h
      injection h with h0
      injection h0 with h1 h23
      injection h23 with h2 h3
      subst h1
      subst h2
      subst h3
      have hhead : pyIsSpace a = false := dropWhile_head_false pyIsSpace s a t ht
      refine ⟨rfl, ?_, ?_, hn, ?_⟩
      · rw [List.takeWhile_cons, if_pos (by simp [hhead])]
        simp
      · intro c hc
        have := List.mem_takeWhile_imp hc
        simpa using this
      · rw [List.takeWhile_append_dropWhile, ← ht,
          List.takeWhile_append_dropWhile]

theorem lookupMass_some_inv (tok : List Char) (m : Nat)
    (h : lookupMass tok = some m) :
    (Nat.repr m).data ≠ [] ∧ '\n' ∉ (Nat.repr m).data := by
  unfold lookupMass at h
  split_ifs at h <;> (injection h with h; subst h; decide)

theorem transform_line_known (line : Line) (strict : Bool)
    (lead tok rem : List Char) (m : Nat)
    (hsplit : FIRST_TOKEN_RE_match (rstripNewlines line) = some (lead, tok, rem))
    (hm : lookupMass tok = some m) :
    transform_line line strict =
      .ok (lead ++ (Nat.repr m).data ++ rem ++ ['\n'], []) := by
  simp [transform_line, hsplit, symbol_to_mass_token, hm]

theorem transform_line_unknown_strict (line : Line) (lead tok rem : List Char)
    (hsplit : FIRST_TOKEN_RE_match (rstripNewlines line) = some (lead, tok, rem))
    (hm : lookupMass tok = none) :
    transform_line line true =
      .error { token := tok, supported := sortedSupported } := by
  simp [transform_line, hsplit, symbol_to_mass_token, hm]

theorem transform_line_unknown_permissive (line : Line) (lead tok rem : List Char)
    (hsplit : FIRST_TOKEN_RE_match (rstripNewlines line) = some (lead, tok, rem))
    (hm : lookupMass tok = none) :
    transform_line line false =
      .ok (rstripNewlines line ++ ['\n'], [warningMsg tok]) := by
  obtain ⟨_, _, _, _, hcat⟩ :=
    FIRST_TOKEN_RE_match_some (rstripNewlines line) lead tok rem hsplit
  simp only [transform_line, hsplit, symbol_to_mass_token, hm, if_neg Bool.false_ne_true]
  rw [← hcat]
  simp [List.append_assoc]

theorem transform_ok_pointwise (ls : List Line) (strict : Bool)
    (out ws : List Line)
    (h : transform_geometry_lines ls strict = .ok (out, ws)) :
    out.length = ls.length ∧
    ∀ (i : Nat) (l : Line), ls[i]? = some l →
      ∃ (o : Line) (w : List Line), out[i]? = some o ∧
        transform_line l strict = .ok (o, w) ∧ ∀ x ∈ w, x ∈ ws := by
  induction ls generalizing out ws with
  | nil =>
    unfold transform_geometry_lines at h
    injection h with h
    injection h with h1 h2
    subst h1
    subst h2
    exact ⟨rfl, fun i l hl => by simp at hl⟩
  | cons a t ih =>
    unfold transform_geometry_lines at h
    cases h1 : transform_line a strict with
    | error e =>
      rw [h1] at h
      cases h
    | ok p =>
      obtain ⟨l0, w0⟩ := p
      rw [h1] at h
      simp only at h
      cases h2 : transform_geometry_lines t strict with
      | error e =>
        rw [h2] at h
        cases h
      | ok q =>
        obtain ⟨ls0, ws0⟩ := q
        rw [h2] at h
        simp only at h
        injection h with h
        injection h with h3 h4
        subst h3
        subst h4
        obtain ⟨ihl, ihp⟩ := ih ls0 ws0 h2
        constructor
        · simp [ihl]
        · intro i l hl
          cases i with
          | zero =>
            simp only [List.getElem?_cons_zero] at hl
            injection hl with hl
            subst hl
            refine ⟨l0, w0, ?_, h1, fun x hx => ?_⟩
            · simp
            · simp [hx]
          | succ n =>
            simp only [List.getElem?_cons_succ] at hl
            obtain ⟨o, w, ho, htl, hw⟩ := ihp n l hl
            refine ⟨o, w, ?_, htl, fun x hx => ?_⟩
            · rw [List.getElem?_cons_succ]
              exact ho
            · simp [hw x hx]

theorem endsInOneTerminator_append (x y : List Char) (hy : y ≠ [])
    (hyn : '\n' ∉ y) :
    endsInOneTerminator (x ++ y ++ ['\n']) = true := by
  cases hyr : y.reverse with
  | nil => exact absurd (by simpa using congrArg List.reverse hyr) hy
  | cons d r =>
    have hd : d ∈ y := List.mem_reverse.mp (hyr ▸ List.mem_cons_self d r)
    have hdn : d ≠ '\n' := fun hEq => hyn (hEq ▸ hd)
    unfold endsInOneTerminator
    rw [show (x ++ y ++ ['\n']).reverse = '\n' :: d :: (r ++ x.reverse) by
      simp [List.reverse_append, hyr]]
    simp [hdn]

/-! ### Claims about the token transformer -/

/-- C2 (known-symbol transformation): for every line of the input whose
first whitespace-delimited token is a key of the symbol-mass mapping, the
transformer replaces that token with the decimal string of its mass while
keeping the leading whitespace run and the remainder of the line
byte-identical to the input, and the output line ends in exactly one
line terminator. -/
theorem known_symbol_transform (ls : List Line) (strict : Bool)
    (out ws : List Line) (i : Nat) (line : Line)
    (lead tok rem : List Char) (m : Nat)
    (hline : ls[i]? = some line)
    (hsplit : FIRST_TOKEN_RE_match (rstripNewlines line) = some (lead, tok, rem))
    (hm : lookupMass tok = some m)
    (hok : transform_geometry_lines ls strict = .ok (out, ws)) :
    out[i]? = some (lead ++ (Nat.repr m).data ++ rem ++ ['\n']) ∧
    endsInOneTerminator (lead ++ (Nat.repr m).data ++ rem ++ ['\n']) = true := by
  obtain ⟨_, hpt⟩ := transform_ok_pointwise ls strict out ws hok
  obtain ⟨o, w, ho, htl, _⟩ := hpt i line hline
  rw [transform_line_known line strict lead tok rem m hsplit hm] at htl
  injection htl with htl
  injection htl with h1 h2
  subst h1
  constructor
  · exact ho
  · obtain ⟨hne, hnn⟩ := lookupMass_some_inv tok m hm
    obtain ⟨_, _, _, hrnl, _⟩ :=
      FIRST_TOKEN_RE_match_some (rstripNewlines line) lead tok rem hsplit
    have := endsInOneTerminator_append lead ((Nat.repr m).data ++ rem)
      (by simp [hne]) (by simp [hnn, hrnl])
    simpa [List.append_assoc] using this

/-- Witness for C2 on a concrete nitrogen row. -/
theorem known_symbol_transform_witness :
    ([String.data "14   0.000  0.000  0.000\n"] : List Line)[0]? =
      some (([] : List Char) ++ (Nat.repr 14).data
        ++ String.data "   0.000  0.000  0.000" ++ ['\n']) ∧
    endsInOneTerminator (([] : List Char) ++ (Nat.repr 14).data
      ++ String.data "   0.000  0.000  0.000" ++ ['\n']) = true :=
  known_symbol_transform [String.data "N   0.000  0.000  0.000\n"] false
    [String.data "14   0.000  0.000  0.000\n"] [] 0
    (String.data "N   0.000  0.000  0.000\n")
    [] (String.data "N") (String.data "   0.000  0.000  0.000") 14
    (by rfl) (by rfl) (by rfl) (by rfl)

/-- C3 (strict-mode failure): when the transformer is run in strict mode on
a block whose first offending line (every line before it transforms
successfully) has a first token with no entry in the mapping, it fails with
an `UnrecognizedSymbol` error carrying that exact token together with the
sorted list of supported symbols, and no output is produced for any line —
in particular the lines after the offending one are never processed. -/
theorem strict_mode_failure (pre post : List Line) (line : Line)
    (lead tok rem : List Char)
    (hpre : ∀ l ∈ pre, ∃ p, transform_line l true = .ok p)
    (hsplit : FIRST_TOKEN_RE_match (rstripNewlines line) = some (lead, tok, rem))
    (hm : lookupMass tok = none) :
    transform_geometry_lines (pre ++ line :: post) true =
      .error { token := tok, supported := sortedSupported } ∧
    List.Pairwise (fun a b => strLtB a b = true) sortedSupported ∧
    sortedSupported.Perm (MASS_BY_SYMBOL.map (fun p => p.fst.data)) := by
  refine ⟨?_, by decide, by decide⟩
  induction pre with
  | nil =>
    simp only [List.nil_append]
    unfold transform_geometry_lines
    rw [transform_line_unknown_strict line lead tok rem hsplit hm]
  | cons a t ih =>
    obtain ⟨p, hp⟩ := hpre a (by simp)
    simp only [List.cons_append]
    unfold transform_geometry_lines
    obtain ⟨l0, w0⟩ := p
    rw [hp]
    simp only
    rw [ih (fun l hl => hpre l (by simp [hl]))]

/-- Witness for C3 on the spec's strict-mode example line. -/
theorem strict_mode_failure_witness :
    transform_geometry_lines [String.data "Xx  2.0 2.0 2.0\n"] true =
      .error { token := String.data "Xx", supported := sortedSupported } ∧
    List.Pairwise (fun a b => strLtB a b = true) sortedSupported ∧
    sortedSupported.Perm (MASS_BY_SYMBOL.map (fun p => p.fst.data)) :=
  strict_mode_failure [] [] (String.data "Xx  2.0 2.0 2.0\n")
    [] (String.data "Xx") (String.data "  2.0 2.0 2.0")
    (fun l hl => absurd hl (List.not_mem_nil l)) (by rfl) (by rfl)

theorem leadsWith_self (p rest : List Char) : leadsWith p (p ++ rest) = true := by
  induction p with
  | nil => rfl
  | cons c cs ih => simp [leadsWith, ih]

theorem occursIn_of_leadsWith (pat s : List Char) (h : leadsWith pat s = true) :
    occursIn pat s = true := by
  cases s with
  | nil => simpa [occursIn] using h
  | cons c cs => simp [occursIn, h]

theorem occursIn_at (x pat y : List Char) : occursIn pat (x ++ (pat ++ y)) = true := by
  induction x with
  | nil => simpa using occursIn_of_leadsWith pat (pat ++ y) (leadsWith_self pat y)
  | cons c cs ih => simp [occursIn, ih]

theorem transform_line_permissive_total (l : Line) :
    ∃ p, transform_line l false = .ok p := by
  unfold transform_line
  cases h : FIRST_TOKEN_RE_match (rstripNewlines l) with
  | none => exact ⟨(l, []), rfl⟩
  | some x =>
    obtain ⟨lead, tok, rem⟩ := x
    simp only
    unfold symbol_to_mass_token
    cases hm : lookupMass tok with
    | none => exact ⟨_, rfl⟩
    | some mass => exact ⟨_, rfl⟩

theorem transform_permissive_total (ls : List Line) :
    ∃ out ws, transform_geometry_lines ls false = .ok (out, ws) := by
  induction ls with
  | nil => exact ⟨[], [], rfl⟩
  | cons a t ih =>
    obtain ⟨p, hp⟩ := transform_line_permissive_total a
    obtain ⟨out, ws, hrec⟩ := ih
    obtain ⟨l0, w0⟩ := p
    exact ⟨l0 :: out, w0 ++ ws, by
      unfold transform_geometry_lines
      rw [hp]
      simp only
      rw [hrec]⟩

/-- C4 counterexample: on the spec's own permissive example line, the single
emitted diagnostic warning contains the offending token but no other part of
the line — not even the fragment "2.0", let alone the line itself — so the
warning does not name the line, contrary to the claim as stated. -/
theorem permissive_warning_counterexample :
    transform_geometry_lines [String.data "Xx  2.0 2.0 2.0\n"] false =
      .ok ([String.data "Xx  2.0 2.0 2.0\n"], [warningMsg (String.data "Xx")]) ∧
    occursIn (String.data "Xx") (warningMsg (String.data "Xx")) = true ∧
    occursIn (String.data "2.0") (warningMsg (String.data "Xx")) = false ∧
    occursIn (String.data "Xx  2.0 2.0 2.0") (warningMsg (String.data "Xx")) = false :=
  ⟨by rfl, by decide, by decide, by decide⟩

/-- C4 (amended): for every line of the input whose first token has no
entry in the mapping, the permissive transformer does not fail, yields that
line unchanged except for terminator normalization, and emits a diagnostic
warning that names the offending token (the warning does not name the
line). -/
theorem permissive_passthrough (ls : List Line) (i : Nat) (line : Line)
    (lead tok rem : List Char)
    (hline : ls[i]? = some line)
    (hsplit : FIRST_TOKEN_RE_match (rstripNewlines line) = some (lead, tok, rem))
    (hm : lookupMass tok = none) :
    (∃ out ws, transform_geometry_lines ls false = .ok (out, ws) ∧
       out[i]? = some (rstripNewlines line ++ ['\n']) ∧
       warningMsg tok ∈ ws) ∧
    occursIn tok (warningMsg tok) = true := by
  constructor
  · obtain ⟨out, ws, hok⟩ := transform_permissive_total ls
    obtain ⟨_, hpt⟩ := transform_ok_pointwise ls false out ws hok
    obtain ⟨o, w, ho, htl, hw⟩ := hpt i line hline
    rw [transform_line_unknown_permissive line lead tok rem hsplit hm] at htl
    injection htl with htl
    injection htl with h1 h2
    subst h1
    refine ⟨out, ws, hok, ho, ?_⟩
    exact hw (warningMsg tok) (by simp [← h2])
  · unfold warningMsg
    rw [List.append_assoc]
    exact occursIn_at _ tok _

/-- Witness for C4 (amended) on the spec's permissive example line. -/
theorem permissive_passthrough_witness :
    (∃ out ws,
       transform_geometry_lines [String.data "Xx  2.0 2.0 2.0\n"] false =
         .ok (out, ws) ∧
       out[0]? = some (rstripNewlines (String.data "Xx  2.0 2.0 2.0\n") ++ ['\n']) ∧
       warningMsg (String.data "Xx") ∈ ws) ∧
    occursIn (String.data "Xx") (warningMsg (String.data "Xx")) = true :=
  permissive_passthrough [String.data "Xx  2.0 2.0 2.0\n"] 0
    (String.data "Xx  2.0 2.0 2.0\n")
    [] (String.data "Xx") (String.data "  2.0 2.0 2.0")
    (by rfl) (by rfl) (by rfl)

/-! ### Helper lemmas about the line source and the orchestrator -/

theorem read_text_lines_shape (content : List Char) :
    ∀ l ∈ read_text_lines content, ∃ core, '\n' ∉ core ∧
      (l = core ++ ['\n'] ∨ l = core) := by
  induction content with
  | nil =>
    intro l hl
    simp [read_text_lines] at hl
  | cons c cs ih =>
    intro l hl
    by_cases hc : c = '\n'
    · subst hc
      simp [read_text_lines] at hl
      rcases hl with hl | hl
      · exact ⟨[], by simp, Or.inl (by simp [hl])⟩
      · exact ih l hl
    · have hnc : '\n' ∉ [c] := by
        intro hmem
        rcases List.mem_cons.mp hmem with h | h
        · exact hc h.symm
        · simp at h
      simp only [read_text_lines, if_neg hc] at hl
      cases hrec : read_text_lines cs with
      | nil =>
        rw [hrec] at hl
        simp at hl
        subst hl
        exact ⟨[c], hnc, Or.inr rfl⟩
      | cons l0 ls =>
        rw [hrec] at hl
        simp only [List.mem_cons] at hl
        rcases hl with hl | hl
        · obtain ⟨core, hcore, hor⟩ := ih l0 (by rw [hrec]; simp)
          subst hl
          have hcc : '\n' ∉ c :: core := by
            intro hmem
            rcases List.mem_cons.mp hmem with h | h
            · exact hc h.symm
            · exact hcore h
          rcases hor with h1 | h1
          · exact ⟨c :: core, hcc, Or.inl (by simp [h1])⟩
          · exact ⟨c :: core, hcc, Or.inr (by simp [h1])⟩
        · exact ih l (by rw [hrec]; simp [hl])

theorem dropWhile_eq_self_of {α : Type} (p : α → Bool) (l : List α)
    (h : ∀ c ∈ l, p c = false) : l.dropWhile p = l := by
  cases l with
  | nil => rfl
  | cons a t => rw [List.dropWhile_cons, if_neg (by simp [h a (by simp)])]

theorem rstrip_no_newline (x : List Char) (hx : '\n' ∉ x) :
    rstripNewlines x = x := by
  unfold rstripNewlines
  rw [dropWhile_eq_self_of _ _ (fun c hc => by
    simp only [decide_eq_false_iff_not]
    exact fun hEq => hx (hEq ▸ List.mem_reverse.mp hc))]
  exact List.reverse_reverse x

theorem rstrip_concat_newline (x : List Char) (hx : '\n' ∉ x) :
    rstripNewlines (x ++ ['\n']) = x := by
  unfold rstripNewlines
  rw [List.reverse_append]
  simp only [List.reverse_cons, List.reverse_nil, List.nil_append,
    List.cons_append]
  rw [List.dropWhile_cons, if_pos (by simp)]
  rw [dropWhile_eq_self_of _ _ (fun c hc => by
    simp only [decide_eq_false_iff_not]
    exact fun hEq => hx (hEq ▸ List.mem_reverse.mp hc))]
  exact List.reverse_reverse x

theorem read_line_rstrip (content : List Char) (l : Line)
    (hl : l ∈ read_text_lines content) : '\n' ∉ rstripNewlines l := by
  obtain ⟨core, hcore, hor⟩ := read_text_lines_shape content l hl
  rcases hor with h | h
  · subst h
    rw [rstrip_concat_newline core hcore]
    exact hcore
  · subst h
    rw [rstrip_no_newline _ hcore]
    exact hcore

theorem block_lines_mem (lines : List Line) (b : GeometryBlock)
    (hb : find_geometry_block lines = some b) (l : Line) (hl : l ∈ b.lines) :
    l ∈ lines := by
  obtain ⟨_, _, _, h4⟩ := find_geometry_block_some_inv lines b hb
  rw [h4] at hl
  exact List.Sublist.mem (List.Sublist.mem hl (List.takeWhile_sublist _))
    (List.drop_sublist _ _)

theorem block_line_visible (lines : List Line) (b : GeometryBlock)
    (hb : find_geometry_block lines = some b) (l : Line) (hl : l ∈ b.lines) :
    (rstripNewlines l).any (fun c => !pyIsSpace c) = true := by
  have hall : l.all pyIsSpace = false := block_lines_nonblank lines b hb l hl
  obtain ⟨c, hc, hcp⟩ := List.all_eq_false.mp hall
  have hcn : c ≠ '\n' := by
    intro hEq
    subst hEq
    exact hcp (by decide)
  refine List.any_eq_true.mpr ⟨c, mem_rstripNewlines hc hcn, ?_⟩
  simpa using hcp

theorem FIRST_TOKEN_RE_match_none (s : List Char)
    (h : FIRST_TOKEN_RE_match s = none) :
    (∀ c ∈ s, pyIsSpace c = true) ∨ '\n' ∈ s := by
  unfold FIRST_TOKEN_RE_match at h
  simp only at h
  cases ht : s.dropWhile pyIsSpace with
  | nil => exact Or.inl (List.dropWhile_eq_nil_iff.mp ht)
  | cons a t =>
    rw [ht] at h
    simp only at h
    by_cases hn : '\n' ∈ (a :: t).dropWhile (fun c => !pyIsSpace c)
    · right
      have h1 : '\n' ∈ a :: t := List.Sublist.mem hn (List.dropWhile_sublist _)
      rw [← ht] at h1
      exact List.Sublist.mem h1 (List.dropWhile_sublist _)
    · rw [if_neg hn] at h
      cases h

theorem transform_line_ok_shape (line : Line) (strict : Bool)
    (o : Line) (w : List Line)
    (hnl : '\n' ∉ rstripNewlines line)
    (hnb : (rstripNewlines line).any (fun c => !pyIsSpace c) = true)
    (h : transform_line line strict = .ok (o, w)) :
    endsInOneTerminator o = true := by
  unfold transform_line at h
  cases hsplit : FIRST_TOKEN_RE_match (rstripNewlines line) with
  | none =>
    exfalso
    rcases FIRST_TOKEN_RE_match_none _ hsplit with hws | hmem
    · obtain ⟨c, hc, hcp⟩ := List.any_eq_true.mp hnb
      simp only [Bool.not_eq_true'] at hcp
      rw [hws c hc] at hcp
      cases hcp
    · exact hnl hmem
  | some x =>
    obtain ⟨lead, tok, rem⟩ := x
    rw [hsplit] at h
    simp only at h
    obtain ⟨_, htne, htws, hrnl, hcat⟩ :=
      FIRST_TOKEN_RE_match_some (rstripNewlines line) lead tok rem hsplit
    cases hs : symbol_to_mass_token tok strict with
    | error e =>
      rw [hs] at h
      cases h
    | ok p =>
      obtain ⟨nt, w0⟩ := p
      rw [hs] at h
      simp only at h
      injection h with h
      injection h with ho hw
      subst ho
      have hnt : nt ≠ [] ∧ '\n' ∉ nt := by
        unfold symbol_to_mass_token at hs
        cases hm : lookupMass tok with
        | some mass =>
          rw [hm] at hs
          simp only at hs
          injection hs with hs
          injection hs with hs1 _
          subst hs1
          exact lookupMass_some_inv tok mass hm
        | none =>
          rw [hm] at hs
          cases strict with
          | true => simp only [if_pos rfl] at hs; cases hs
          | false =>
            simp only [if_neg Bool.false_ne_true] at hs
            injection hs with hs
            injection hs with hs1 _
            subst hs1
            refine ⟨htne, fun hmem => ?_⟩
            have := htws '\n' hmem
            simp [pyIsSpace] at this
      have := endsInOneTerminator_append lead (nt ++ rem)
        (by simp [hnt.1]) (by simp [hnt.2, hrnl])
      simpa [List.append_assoc] using this

/-! ### Claims about the orchestrator -/

/-- C6 (output extent): on a successful run over a located block
`[start, end)`, the output holds exactly `end - start` lines; the line at
output position `i` is precisely the transform of the block line at the
same position `i` (so the original order is kept and no line from outside
the block ever contributes), and every output line ends in exactly one
line terminator. -/
theorem output_extent (content : List Char) (strict : Bool)
    (b : GeometryBlock) (out ws : List Line)
    (hb : find_geometry_block (read_text_lines content) = some b)
    (ht : transform_geometry_lines b.lines strict = .ok (out, ws)) :
    out.length = b.end_line - b.start_line ∧
    (∀ (i : Nat) (l : Line), b.lines[i]? = some l →
      ∃ (o : Line) (w : List Line), out[i]? = some o ∧
        transform_line l strict = .ok (o, w)) ∧
    (∀ o ∈ out, endsInOneTerminator o = true) := by
  obtain ⟨hlen, hpt⟩ := transform_ok_pointwise b.lines strict out ws ht
  obtain ⟨hs1, hs2, hs3, hs4⟩ := find_geometry_block_some_inv _ b hb
  have hblen : b.lines.length = b.end_line - b.start_line := by
    rw [hs4]
    unfold countNonBlank at hs3
    omega
  refine ⟨by rw [hlen, hblen], ?_, ?_⟩
  · intro i l hl
    obtain ⟨o, w, ho, htl, _⟩ := hpt i l hl
    exact ⟨o, w, ho, htl⟩
  · intro o hmem
    obtain ⟨i, hoi⟩ := List.mem_iff_getElem?.mp hmem
    have hi : i < b.lines.length := by
      rw [← hlen]
      exact (List.getElem?_eq_some_iff.mp hoi).1
    have hli : b.lines[i]? = some (b.lines.get ⟨i, hi⟩) := by
      rw [List.getElem?_eq_getElem hi]
      rfl
    obtain ⟨o2, w, ho2, htl, _⟩ := hpt i _ hli
    have ho2o : o2 = o := by
      rw [hoi] at ho2
      exact (Option.some_inj.mp ho2).symm
    subst ho2o
    have hmemb : b.lines.get ⟨i, hi⟩ ∈ b.lines := List.get_mem _ _ hi
    exact transform_line_ok_shape _ strict o2 w
      (read_line_rstrip content _ (block_lines_mem _ b hb _ hmemb))
      (block_line_visible _ b hb _ hmemb) htl

/-- Witness for C6 on a concrete artifact with a two-line block. -/
theorem output_extent_witness :
    ([String.data "14 1\n", String.data "1 2\n"] : List Line).length = 4 - 2 ∧
    (∀ (i : Nat) (l : Line),
        ([String.data "N 1\n", String.data "H 2\n"] : List Line)[i]? = some l →
      ∃ (o : Line) (w : List Line),
        ([String.data "14 1\n", String.data "1 2\n"] : List Line)[i]? = some o ∧
        transform_line l false = .ok (o, w)) ∧
    (∀ o ∈ ([String.data "14 1\n", String.data "1 2\n"] : List Line),
        endsInOneTerminator o = true) :=
  output_extent
    (String.data "CARTESIAN COORDINATES (ANGSTROEM)\nX\nN 1\nH 2\n\n") false
    { start_line := 2, end_line := 4
    , lines := [String.data "N 1\n", String.data "H 2\n"] }
    [String.data "14 1\n", String.data "1 2\n"] []
    (by rfl) (by rfl)

/-- C7 (atomicity of failure): when the input artifact is missing, or the
geometry block is not found, or the strict-mode transformer raises, the
orchestrator produces no output artifact at all. -/
theorem atomic_failure (input_exists : Bool) (content : List Char)
    (strict write_ok : Bool) (lv : Nat)
    (hfail : input_exists = false ∨
             find_geometry_block (read_text_lines content) = none ∨
             ∃ b e, find_geometry_block (read_text_lines content) = some b ∧
                    transform_geometry_lines b.lines strict = .error e) :
    (main input_exists content strict write_ok lv).2 = none := by
  rcases hfail with hf | hf | ⟨b, e, hb, he⟩
  · simp [main, hf]
  · cases input_exists with
    | false => rfl
    | true => simp [main, generate_geometry_file, hf]
  · cases input_exists with
    | false => rfl
    | true => simp [main, generate_geometry_file, hb, he]

/-- Witness for C7: a missing input artifact yields no output. -/
theorem atomic_failure_witness :
    (main false (String.data "x") true true 0).2 = none :=
  atomic_failure false (String.data "x") true true 0 (Or.inl rfl)

/-- C8 (exit-code contract): the process exit code is `2` exactly when the
input artifact does not exist, `0` exactly when the whole run (including
the final write) succeeds, and `1` exactly when the input exists but the
processing raises (block not found or strict-mode unrecognized symbol) or
the final write fails. -/
theorem exit_code_contract (input_exists : Bool) (content : List Char)
    (strict write_ok : Bool) (lv : Nat) :
    ((main input_exists content strict write_ok lv).1 = 2 ↔
       input_exists = false) ∧
    ((main input_exists content strict write_ok lv).1 = 0 ↔
       input_exists = true ∧ write_ok = true ∧
       ∃ out, generate_geometry_file content strict = .ok out) ∧
    ((main input_exists content strict write_ok lv).1 = 1 ↔
       input_exists = true ∧
         ((∃ e, generate_geometry_file content strict = .error e) ∨
          write_ok = false)) := by
  cases input_exists with
  | false => simp [main]
  | true =>
    cases hg : generate_geometry_file content strict with
    | error e => cases write_ok <;> simp [main, hg]
    | ok out => cases write_ok <;> simp [main, hg]

/-- C9 (determinism / idempotence): the pipeline is a pure function of the
input artifact content and the run configuration; two runs with the same
input, strictness, and write environment produce identical exit codes and
byte-identical output artifacts, independently of the diagnostic log
level. -/
theorem pipeline_deterministic (input_exists : Bool) (content : List Char)
    (strict write_ok : Bool) (lv lv2 : Nat) :
    main input_exists content strict write_ok lv =
      main input_exists content strict write_ok lv2 := rfl

end G2P
